import Mathlib

/-!
Verification development for the `defacto` transcript-scanning program.

The program (Rust) authenticates against a learning portal, enumerates
lecture recordings, resolves one transcript per recording (captions with a
speech-recognition fallback) and counts occurrences of three fixed phrases.

Text is modelled as `List Nat` of Unicode code points.  External effects
(HTTP, HTML extraction, the whisper recognizer, `json::parse`) are passed in
as explicit parameters; everything the claims are about — the regex-based
pattern counter, caption/stream selection from the recording config, the
cue-reduction of `get_opencast_transcript`, the fallback decision of
`get_transcript`, the batch drain of `do_stuff`, and the login/session code
paths of `client.rs` — is translated directly from the source.
-/

/-- Code points of a string literal, for stating concrete facts. -/
def str (s : String) : List Nat :=
  s.data.map Char.toNat

/-- The space character used by `join(" ")` in the source. -/
def spaceCp : List Nat := [32]

/-- Membership of a code point in the `[a-zA-Z]` character class of the
regexes in `PATTERNS` (src/defacto.rs lines 19-23). -/
def isAsciiLetter (c : Nat) : Bool :=
  decide ((97 ≤ c ∧ c ≤ 122) ∨ (65 ≤ c ∧ c ≤ 90))

/-- Simple case folding as applied by `RegexBuilder::case_insensitive(true)`
to the literal letters of the patterns: ASCII upper case folds to lower
case, and the two non-ASCII code points that case-fold into ASCII letters
(U+017F LONG S → s, U+212A KELVIN SIGN → k) are folded as well.  All other
code points are fixed. -/
def foldc (c : Nat) : Nat :=
  if 65 ≤ c ∧ c ≤ 90 then c + 32
  else if c = 383 then 115
  else if c = 8490 then 107
  else c

/-- Code points matched by the case-insensitive `[a-zA-Z]`: the regex crate
case-folds the class before negating `[^a-zA-Z]`, which adds U+017F and
U+212A to the ASCII letters. -/
def isWordLetter (c : Nat) : Bool :=
  isAsciiLetter c || decide (c = 383) || decide (c = 8490)

/-- Code points matched by `\s` (the Unicode White_Space property, the
regex crate's default). -/
def isWs (c : Nat) : Bool :=
  decide (c = 9 ∨ c = 10 ∨ c = 11 ∨ c = 12 ∨ c = 13 ∨ c = 32 ∨ c = 133 ∨
    c = 160 ∨ c = 5760 ∨ (8192 ≤ c ∧ c ≤ 8202) ∨ c = 8232 ∨ c = 8233 ∨
    c = 8239 ∨ c = 8287 ∨ c = 12288)

/-- Match one literal pattern word case-insensitively at the head of the
input, returning the rest of the input. -/
def matchWord : List Nat → List Nat → Option (List Nat)
  | [], s => some s
  | _ :: _, [] => none
  | c :: w, d :: s => if foldc d = foldc c then matchWord w s else none

/-- Match `\s+` at the head of the input.  The gap is always followed by a
literal letter in the patterns and no whitespace code point case-folds to a
letter, so greedy matching of the maximal whitespace run is exact. -/
def skipGap : List Nat → Option (List Nat)
  | [] => none
  | c :: s => if isWs c then some (s.dropWhile isWs) else none

/-- Match the words of a pattern separated by `\s+` gaps. -/
def matchWords : List (List Nat) → List Nat → Option (List Nat)
  | [], s => some s
  | [w], s => matchWord w s
  | w :: ws, s =>
    (matchWord w s).bind (fun s2 => (skipGap s2).bind (matchWords ws))

/-- Match a whole `PATTERNS` regex `[^a-zA-Z]word(\s+word)*[^a-zA-Z]` at
the head of the input; on success return the input remaining after the
consumed trailing boundary character. -/
def matchPatAt (ws : List (List Nat)) (s : List Nat) : Option (List Nat) :=
  match s with
  | [] => none
  | c :: s2 =>
    if isWordLetter c then none
    else
      match matchWords ws s2 with
      | none => none
      | some s3 =>
        match s3 with
        | [] => none
        | d :: s4 => if isWordLetter d then none else some s4

/-- Fuelled scan mirroring `Regex::find_iter(..).count()`: try a match at
every position from the left, and on a match continue after its end
(non-overlapping).  Each step consumes at least one code point, so fuel
equal to the input length never runs out. -/
def countPatFuel (ws : List (List Nat)) : Nat → List Nat → Nat
  | 0, _ => 0
  | _ + 1, [] => 0
  | fuel + 1, c :: s =>
    match matchPatAt ws (c :: s) with
    | some rem => countPatFuel ws fuel rem + 1
    | none => countPatFuel ws fuel s

/-- Number of non-overlapping matches of a pattern in a transcript, as
computed by `pattern.find_iter(&transcript).count()` in `get_data`
(src/defacto.rs lines 182-188). -/
def countPat (ws : List (List Nat)) (s : List Nat) : Nat :=
  countPatFuel ws s.length s

/-- Word list of the regex `[^a-zA-Z]de\s+facto[^a-zA-Z]`. -/
def defactoWords : List (List Nat) := [str ("de"), str ("facto")]

/-- Word list of the regex `[^a-zA-Z]trivial[^a-zA-Z]`. -/
def trivialWords : List (List Nat) := [str ("trivial")]

/-- Word list of the regex `[^a-zA-Z]ergibt\s+das\s+sinn[^a-zA-Z]`. -/
def sinnWords : List (List Nat) := [str ("ergibt"), str ("das"), str ("sinn")]

/-- The three fixed patterns, in the order of `PATTERNS`. -/
def PATTERNS : List (List (List Nat)) := [defactoWords, trivialWords, sinnWords]

/-- One past `usize::MAX` on the 64-bit targets the program is built
for; `usize` arithmetic wraps modulo this value in a release build. -/
def usizeSize : Nat := 18446744073709551616

/-- Model of the `json` crate's `JsonValue` as consumed by the recording
config code (numbers restricted to the `usize` values read via
`as_usize`). -/
inductive JVal where
  | null
  | jbool (b : Bool)
  | jnum (n : Nat)
  | jstr (s : String)
  | jarr (xs : List JVal)
  | jobj (fields : List (String × JVal))

/-- Indexing `value[key]`: for an object, the first member with the key,
otherwise the crate's static `Null`. -/
def JVal.idx (j : JVal) (key : String) : JVal :=
  match j with
  | .jobj fields =>
    match fields.find? (fun f => f.1 = key) with
    | some f => f.2
    | none => .null
  | _ => .null

/-- Model of `JsonValue::as_str`. -/
def JVal.asStr (j : JVal) : Option String :=
  match j with
  | .jstr s => some s
  | _ => none

/-- Model of `JsonValue::as_usize`: the number must fit in `usize`. -/
def JVal.asUsize (j : JVal) : Option Nat :=
  match j with
  | .jnum n => if n < usizeSize then some n else none
  | _ => none

/-- Model of the `JsonValue == &str` comparison used for `caption["lang"]
== "de"`. -/
def JVal.eqStr (j : JVal) (s : String) : Bool :=
  match j with
  | .jstr t => t = s
  | _ => false

/-- The caption-track predicate of `get_caption_url`: format is "vtt" and
language tag is "de". -/
def captionSelectable (c : JVal) : Bool :=
  ((c.idx ("format")).asStr == some ("vtt")) && (c.idx ("lang")).eqStr ("de")

/-- Model of `DefactoClient::get_caption_url` (src/defacto.rs lines
249-260). -/
def get_caption_url (cfg : JVal) : Option String :=
  match cfg.idx ("captions") with
  | .jarr captions =>
    (captions.find? captionSelectable).bind (fun c => (c.idx ("url")).asStr)
  | _ => none

/-- The per-variant extraction inside `get_video_url`: source URL, width
and height must all be present; the variant is keyed by the pixel area
`w * h` computed in `usize` arithmetic, which wraps modulo 2^64 in a
release build (a debug build would panic on overflow instead). -/
def variantEntry (v : JVal) : Option (String × Nat) :=
  ((v.idx ("src")).asStr).bind (fun src =>
    (((v.idx ("res")).idx ("w")).asUsize).bind (fun w =>
      (((v.idx ("res")).idx ("h")).asUsize).map
        (fun h => (src, (w * h) % usizeSize))))

/-- Model of `Iterator::min_by` on the area key: the first element with
minimal area (Rust's `min_by` keeps the earlier element on ties). -/
def minByArea (l : List (String × Nat)) : Option (String × Nat) :=
  l.foldl
    (fun acc x =>
      match acc with
      | none => some x
      | some a => if x.2 < a.2 then some x else some a)
    none

/-- The stream selection of `get_video_url`: require `streams` to be an
array and find the first entry whose role is "mainAudio". -/
def mainAudioStream (cfg : JVal) : Option JVal :=
  match cfg.idx ("streams") with
  | .jarr streams =>
    streams.find? (fun s => (s.idx ("role")).asStr == some ("mainAudio"))
  | _ => none

/-- The complete mp4 variants of the first "mainAudio" stream of a config:
empty when there is no such stream, when its `sources.mp4` is not an array,
or when no variant has all of `src`, `res.w`, `res.h`. -/
def candidateVariants (cfg : JVal) : List (String × Nat) :=
  match mainAudioStream cfg with
  | some stream =>
    match (stream.idx ("sources")).idx ("mp4") with
    | .jarr mp4s => mp4s.filterMap variantEntry
    | _ => []
  | none => []

/-- Model of `DefactoClient::get_video_url` (src/defacto.rs lines
262-288). -/
def get_video_url (cfg : JVal) : Option String :=
  (mainAudioStream cfg).bind
    (fun stream =>
      match (stream.idx ("sources")).idx ("mp4") with
      | .jarr mp4s => (minByArea (mp4s.filterMap variantEntry)).map (fun p => p.1)
      | _ => none)

/-- Outcome of running a fallible code path, with `panic` for a Rust
panic (e.g. `Option::unwrap` on `None`). -/
inductive RunResult (α : Type) where
  | ok (a : α)
  | err (msg : String)
  | panic
deriving DecidableEq

/-- Model of `subtp::vtt::VttBlock`: a cue block carrying its payload
lines, or any non-cue block (style/region/comment directives). -/
inductive VttBlock where
  | que (payload : List (List Nat))
  | other

/-- Right-trim: drop the trailing run of whitespace code points. -/
def trimRight : List Nat → List Nat
  | [] => []
  | c :: rest =>
    if (trimRight rest).isEmpty then (if isWs c then [] else [c])
    else c :: trimRight rest

/-- Model of Rust's `str::trim`: drop leading and trailing Unicode
whitespace. -/
def trimCue (l : List Nat) : List Nat :=
  trimRight (l.dropWhile isWs)

/-- The payload strings extracted from the cue blocks only (the
`filter_map` + `payload.join(" ")` of `get_opencast_transcript`). -/
def cuesOf (blocks : List VttBlock) : List (List Nat) :=
  blocks.filterMap (fun b =>
    match b with
    | .que payload => some (List.intercalate spaceCp payload)
    | .other => none)

/-- The `for` loop of `get_opencast_transcript`: walk all raw cues, trim
each, and push it when it differs from the previously pushed value. -/
def dedupLoop (last : List Nat) : List (List Nat) → List (List Nat)
  | [] => []
  | b :: rest =>
    let tb := trimCue b
    if tb = last then dedupLoop last rest else tb :: dedupLoop tb rest

/-- Model of `DefactoClient::get_opencast_transcript` after the caption
file has been downloaded and parsed into its block list (src/defacto.rs
lines 316-343).  `raw_transcript.first().unwrap()` panics when the file
has blocks but no cue block. -/
def get_opencast_transcript (blocks : List VttBlock) : RunResult (List Nat) :=
  if blocks.length = 0 then .err ("Captions are empty")
  else
    match cuesOf blocks with
    | [] => .panic
    | first :: _ =>
      let last := trimCue first
      .ok (List.intercalate spaceCp (last :: dedupLoop last (cuesOf blocks)))

/-- The cue reduction as the spec words it: trim each cue, then keep one
copy per maximal run of consecutive identical cues. -/
def specDedup : List (List Nat) → List (List Nat)
  | [] => []
  | [x] => [x]
  | x :: y :: rest =>
    if x = y then specDedup (y :: rest) else x :: specDedup (y :: rest)

/-- Spec-side reduction of a cue sequence: trim, then collapse runs. -/
def reduceSpec (l : List (List Nat)) : List (List Nat) :=
  specDedup (l.map trimCue)

/-- Model of `DefactoClient::get_transcript` (src/defacto.rs lines
290-309).  The network-dependent steps are parameters: `fetchCaption` is
`get_opencast_transcript` on a URL and `whisper` is
`get_whisper_transcript`.  The second component records whether the
speech-recognition fallback was invoked. -/
def get_transcript (cfg : JVal)
    (fetchCaption : String → Except String (List Nat))
    (whisper : String → Except String (List Nat)) :
    Except String (List Nat) × Bool :=
  let transcript :=
    match get_caption_url cfg with
    | some captionUrl => fetchCaption captionUrl
    | none => .error ("Could not find a caption url")
  match transcript with
  | .ok t => (.ok t, false)
  | .error _ =>
    match get_video_url cfg with
    | some videoUrl => (whisper videoUrl, true)
    | none => (.error ("Could not find a video url"), false)

/-- Model of the drain loop of `DefactoClient::do_stuff` (src/defacto.rs
lines 144-167): one unit of work per link, spawned in enumeration order
and drained in that same order.  A unit's outcome as observed through
`handle.await` is `ok` (a row, pushed), `err` (the unit returned an
error: logged and dropped) or `panic` (the task panicked: `handle.await?`
turns the join error into an early error return, aborting the whole
batch). -/
def do_stuff {α β : Type} (links : List α) (getData : α → RunResult β) :
    Except String (List β) :=
  match links with
  | [] => .ok []
  | l :: rest =>
    match getData l with
    | .panic => .error ("JoinError: task panicked")
    | .ok row => (do_stuff rest getData).map (fun rows => row :: rows)
    | .err _ => do_stuff rest getData

/-- The row of a unit outcome, when it produced one. -/
def okOf {β : Type} (x : RunResult β) : Option β :=
  match x with
  | .ok b => some b
  | _ => none

/-- Minimal model of `reqwest::Url` as used by `Session::login`. -/
structure Url where
  scheme : String
  host : String
  path : String
  query : Option String

/-- Model of `Url::set_query(None)`. -/
def stripQuery (u : Url) : Url :=
  { u with query := none }

/-- Rendering of a URL, for the `Referer` header (`full_url.to_string()`). -/
def urlToString (u : Url) : String :=
  u.scheme ++ "://" ++ u.host ++ u.path ++
    (match u.query with
     | some q => "?" ++ q
     | none => "")

/-- The credential POST request assembled by `Session::login`
(src/client.rs lines 141-151): target URL, `Origin`, `Referer` and the
`Sec-Fetch-*` headers. -/
structure PostRequest where
  url : Url
  origin : String
  referer : String
  secFetchDest : String
  secFetchMode : String
  secFetchSite : String
  secFetchUser : String

/-- Model of the request construction in `Session::login`: the body is
posted to the form response URL with its query stripped, and the `Origin`
header is `format!("{}://{}", full_url.host().unwrap(), full_url.scheme())`
— host first, scheme second, exactly as the source writes it. -/
def loginPost (full_url : Url) : PostRequest :=
  { url := stripQuery full_url
  , origin := full_url.host ++ "://" ++ full_url.scheme
  , referer := urlToString full_url
  , secFetchDest := "document"
  , secFetchMode := "navigate"
  , secFetchSite := "same-origin"
  , secFetchUser := "?1" }

/-- A web origin as the claim words it: scheme, "://", host. -/
def specOrigin (u : Url) : String :=
  u.scheme ++ "://" ++ u.host

/-- State of a restored session: cookie jar plus optional security token. -/
structure SessionState where
  jar : List (String × String)
  sessionKey : Option String

/-- Model of `Session::restore` (src/client.rs lines 81-103).  The effects
are parameters: `loadJson` is `CookieStore::load_json` on the serialized
bytes, `check` the liveness probe, `login` the full login flow and
`loadKey` the token refresh (each returning the session key they leave
behind on success).  The source calls `.unwrap()` on `loadJson`, so a
deserialization failure is a panic, not an error return. -/
def session_restore
    (loadJson : Except String (List (String × String)))
    (check : Except String Bool)
    (login : Except String (Option String))
    (loadKey : Except String (Option String)) :
    RunResult SessionState :=
  match loadJson with
  | .error _ => .panic
  | .ok jar =>
    match check with
    | .error e => .err e
    | .ok alive =>
      if alive then
        match loadKey with
        | .error e => .err e
        | .ok key => .ok { jar := jar, sessionKey := key }
      else
        match login with
        | .error e => .err e
        | .ok key => .ok { jar := jar, sessionKey := key }

/-- Strip a trailing carriage return (a line terminated by `\r\n`). -/
def chompCR (l : String) : String :=
  if l.endsWith ("\x0d") then l.dropRight 1 else l

/-- Helper for `rustLines`: every part except the last was terminated by a
newline (so its trailing `\r` is stripped); a final empty part comes from a
trailing newline and yields no line. -/
def rustLinesAux : List String → List String
  | [] => []
  | [last] => if last = "" then [] else [last]
  | p :: rest => chompCR p :: rustLinesAux rest

/-- Model of Rust's `str::lines`: split on `\n`, treat `\r\n` as a line
ending, no final empty line for a trailing newline. -/
def rustLines (s : String) : List String :=
  rustLinesAux (s.splitOn ("\x0a"))

/-- The split_once(";") of `load_key`: the part of the line before the
first semicolon, `none` when there is no semicolon. -/
def beforeSemi (s : String) : Option String :=
  match s.splitOn (";") with
  | [] => none
  | [_] => none
  | x :: _ :: _ => some x

/-- The environment `Session::load_key` runs against: the landing-page
request outcome, the text of the third head script node when present, and
the external `json::parse`. -/
structure LoadKeyEnv where
  homeResponse : Except String Unit
  scriptText : Option String
  parse : String → Option JVal

/-- The `M.cfg = ` assignment prefix searched for by `load_key`. -/
def mcfgAssign : String := "M.cfg = "

/-- Model of `Session::load_key` (src/client.rs lines 195-218) as a state
transformer on the stored security token: the pair is (call result, token
after the call).  Every failing step returns before the assignment
`self.session_key = Some(..)`, which is the last statement. -/
def load_key (env : LoadKeyEnv) (key : Option String) :
    Except String Unit × Option String :=
  match env.homeResponse with
  | .error e => (.error e, key)
  | .ok _ =>
    match env.scriptText with
    | none => (.error ("Failed to find moodle config script"), key)
    | some text =>
      match (rustLines text).find? (fun l => l.startsWith mcfgAssign) with
      | none =>
        (.error ("Failed to find moodle config setter in moodle config script"), key)
      | some line =>
        match beforeSemi (line.drop mcfgAssign.length) with
        | none => (.error ("Failed to extract moodle config"), key)
        | some cfgStr =>
          match env.parse cfgStr with
          | none => (.error ("Failed to parse moodle config json"), key)
          | some cfg =>
            match (cfg.idx ("sesskey")).asStr with
            | none => (.error ("Failed to get sesskey from moodle config json"), key)
            | some sk => (.ok (), some sk)

/-- The `captions` array of a config, empty when absent or not an array. -/
def captionsArr (cfg : JVal) : List JVal :=
  match cfg.idx ("captions") with
  | .jarr captions => captions
  | _ => []

/-- Pointwise equality of two texts up to the case folding of the
patterns' regexes. -/
def CaseEquiv (s t : List Nat) : Prop :=
  s.map foldc = t.map foldc

/-- A recording config with an empty caption list and one "mainAudio"
stream carrying a single complete mp4 variant. -/
def cfgNoCaption : JVal :=
  .jobj
    [("captions", .jarr []),
     ("streams", .jarr
       [.jobj
         [("role", .jstr ("mainAudio")),
          ("sources", .jobj
            [("mp4", .jarr
              [.jobj
                [("src", .jstr ("low.mp4")),
                 ("res", .jobj [("w", .jnum 10), ("h", .jnum 8)])]])])]])]

/-- A recording config with neither captions nor streams. -/
def cfgEmpty : JVal := .jobj []

/-- A recording config whose "mainAudio" stream has two complete mp4
variants; the lower-area one comes second. -/
def cfgTwoVariants : JVal :=
  .jobj
    [("streams", .jarr
      [.jobj
        [("role", .jstr ("mainAudio")),
         ("sources", .jobj
           [("mp4", .jarr
             [.jobj
               [("src", .jstr ("high.mp4")),
                ("res", .jobj [("w", .jnum 16), ("h", .jnum 9)])],
              .jobj
               [("src", .jstr ("low.mp4")),
                ("res", .jobj [("w", .jnum 4), ("h", .jnum 3)])]])])]])]

/-- A recording config whose "mainAudio" stream has a variant whose true
pixel area overflows `usize` (2^32 × 2^32) next to a tiny 1 × 2
variant. -/
def cfgOverflow : JVal :=
  .jobj
    [("streams", .jarr
      [.jobj
        [("role", .jstr ("mainAudio")),
         ("sources", .jobj
           [("mp4", .jarr
             [.jobj
               [("src", .jstr ("big.mp4")),
                ("res", .jobj
                  [("w", .jnum 4294967296), ("h", .jnum 4294967296)])],
              .jobj
               [("src", .jstr ("small.mp4")),
                ("res", .jobj [("w", .jnum 1), ("h", .jnum 2)])]])])]])]

/-- The caption cue blocks of the end-to-end scenario. -/
def blocksC5 : List VttBlock :=
  [.que [str ("Das ist trivial.")],
   .que [str ("Das ist trivial.")],
   .que [str ("Ergibt das Sinn?")]]

/-- A caption block list with a non-cue block, a cue trimming to a
duplicate of its successor, and a non-consecutive repeat. -/
def blocksC4 : List VttBlock :=
  [.other,
   .que [str ("  Guten Morgen  ")],
   .que [str ("Guten Morgen")],
   .que [str ("alle zusammen")],
   .que [str ("Guten Morgen")]]

/-- The login-form response URL used to exhibit the `Origin` header bug. -/
def samlUrl : Url :=
  { scheme := "https"
  , host := "idp.zid.tuwien.ac.at"
  , path := "/simplesaml/module.php"
  , query := some ("AuthState=abc") }

/-- A `load_key` environment whose landing page lacks the config script. -/
def envNoScript : LoadKeyEnv :=
  { homeResponse := .ok ()
  , scriptText := none
  , parse := fun _ => none }

/-- A batch unit function for exercising `do_stuff`: recording 3 fails
with an error result, the others produce a row. -/
def unitFn : Nat → RunResult Nat :=
  fun n => if n = 3 then .err ("boom") else .ok (n * 10)

/-- A batch unit function whose third unit panics, as `get_data` does on a
caption file with blocks but no cues. -/
def unitPanicFn : Nat → RunResult Nat :=
  fun n => if n = 3 then .panic else .ok (n * 10)

theorem do_stuff_ok_of_no_panic {α β : Type} (f : α → RunResult β) :
    ∀ links : List α, (∀ l ∈ links, f l ≠ RunResult.panic) →
      do_stuff links f
        = Except.ok (links.filterMap (fun l => okOf (f l))) := by
  intro links
  induction links with
  | nil => intro _; rfl
  | cons l rest ih =>
    intro h
    have hl := h l (List.mem_cons_self l rest)
    have hrest := ih (fun x hx => h x (List.mem_cons_of_mem l hx))
    cases hf : f l with
    | panic => exact absurd hf hl
    | ok row => simp [do_stuff, hf, hrest, okOf, Except.map]
    | err e => simp [do_stuff, hf, hrest, okOf]

theorem filterMap_ok_length {α β : Type} (f : α → RunResult β) :
    ∀ links : List α, (∀ l ∈ links, (okOf (f l)).isSome = true) →
      (links.filterMap (fun l => okOf (f l))).length = links.length := by
  intro links
  induction links with
  | nil => intro _; rfl
  | cons l rest ih =>
    intro h
    have hl := h l (List.mem_cons_self l rest)
    cases hf : okOf (f l) with
    | none => rw [hf] at hl; exact Bool.noConfusion hl
    | some r =>
      simp only [List.filterMap_cons, hf, List.length_cons]
      rw [ih (fun x hx => h x (List.mem_cons_of_mem l hx))]

/-- C3 as stated is false: a per-recording unit that panics — reachable,
since `get_data` panics on a caption file whose blocks hold no cue — is
not logged-and-dropped.  `handle.await?` propagates the join error, so the
whole batch aborts: the error reaches the caller and every sibling row is
lost instead of one row being returned per other recording. -/
theorem batch_panic_cex :
    do_stuff ([1, 2] ++ 3 :: [4, 5]) unitPanicFn
      = Except.error ("JoinError: task panicked")
    ∧ do_stuff ([1, 2] ++ 3 :: [4, 5]) unitPanicFn
        ≠ Except.ok [10, 20, 40, 50] :=
  ⟨rfl, fun h => Except.noConfusion h⟩

/-- C3 (amended): a unit failure that surfaces as an error result (e.g.
the config fetch throwing) is logged and only that recording's row is
omitted — provided no unit panics, the batch completes without error and
returns exactly the sibling units' rows in dispatch order (so sibling
counts are unaffected, and the output is deterministic on immediate re-run
because `do_stuff` is a pure function of links and unit outcomes), with
one row per sibling when every sibling succeeds.  A unit that panics
instead aborts the whole batch and propagates the join error to the
caller (see the counterexample). -/
theorem batch_isolation_amended {α β : Type} (xs ys : List α)
    (f : α → RunResult β) (bad : α) (e : String)
    (hbad : f bad = RunResult.err e)
    (hnp : ∀ l ∈ xs ++ ys, f l ≠ RunResult.panic) :
    do_stuff (xs ++ bad :: ys) f
      = Except.ok ((xs ++ ys).filterMap (fun l => okOf (f l)))
    ∧ ((∀ l ∈ xs ++ ys, (okOf (f l)).isSome = true) →
        ∃ rows, do_stuff (xs ++ bad :: ys) f = Except.ok rows
          ∧ rows.length = xs.length + ys.length) := by
  have hnp2 : ∀ l ∈ xs ++ bad :: ys, f l ≠ RunResult.panic := by
    intro l hl
    rcases List.mem_append.mp hl with h | h
    · exact hnp l (List.mem_append_left ys h)
    · rcases List.mem_cons.mp h with h | h
      · rw [h, hbad]
        exact fun hc => RunResult.noConfusion hc
      · exact hnp l (List.mem_append_right xs h)
  have hmain := do_stuff_ok_of_no_panic f (xs ++ bad :: ys) hnp2
  have hfm : (xs ++ bad :: ys).filterMap (fun l => okOf (f l))
      = (xs ++ ys).filterMap (fun l => okOf (f l)) := by
    rw [List.filterMap_append, List.filterMap_cons, List.filterMap_append]
    simp [hbad, okOf]
  refine ⟨by rw [hmain, hfm], ?_⟩
  intro hok
  refine ⟨(xs ++ ys).filterMap (fun l => okOf (f l)), by rw [hmain, hfm], ?_⟩
  rw [filterMap_ok_length f (xs ++ ys) hok, List.length_append]

/-- Witness for `batch_isolation_amended`: five recordings, the third
failing with an error result, yield exactly four rows in dispatch
order. -/
theorem batch_isolation_amended_witness :
    do_stuff ([1, 2] ++ 3 :: [4, 5]) unitFn
      = Except.ok (([1, 2] ++ [4, 5]).filterMap (fun l => okOf (unitFn l)))
    ∧ ∃ rows, do_stuff ([1, 2] ++ 3 :: [4, 5]) unitFn = Except.ok rows
        ∧ rows.length = [1, 2].length + [4, 5].length :=
  ⟨(batch_isolation_amended [1, 2] [4, 5] unitFn 3 ("boom") rfl (by decide)).1,
   (batch_isolation_amended [1, 2] [4, 5] unitFn 3 ("boom") rfl (by decide)).2
     (by decide)⟩

theorem get_caption_url_eq_none_of_no_selectable (cfg : JVal)
    (h : ∀ c ∈ captionsArr cfg, captionSelectable c = false) :
    get_caption_url cfg = none := by
  unfold get_caption_url
  unfold captionsArr at h
  split
  · rename_i captions hcap
    rw [hcap] at h
    have : captions.find? captionSelectable = none := by
      rw [List.find?_eq_none]
      intro x hx
      simp [h x hx]
    rw [this]
    rfl
  · rfl

/-- C2: with no selectable caption track (no entry of format "vtt" and
language "de"), `get_transcript` does not fail on the missing captions but
proceeds to the stream fallback: if a qualifying media stream exists the
speech recognizer is invoked, and if none exists the call returns the
"Could not find a video url" error with the recognizer never invoked. -/
theorem fallback_policy (cfg : JVal)
    (fetchCaption whisper : String → Except String (List Nat))
    (hno : ∀ c ∈ captionsArr cfg, captionSelectable c = false) :
    (∀ u, get_video_url cfg = some u →
      (get_transcript cfg fetchCaption whisper).2 = true
      ∧ (get_transcript cfg fetchCaption whisper).1 = whisper u)
    ∧ (get_video_url cfg = none →
      (get_transcript cfg fetchCaption whisper).1
          = Except.error ("Could not find a video url")
      ∧ (get_transcript cfg fetchCaption whisper).2 = false) := by
  have hcap := get_caption_url_eq_none_of_no_selectable cfg hno
  constructor
  · intro u hu
    simp [get_transcript, hcap, hu]
  · intro hnone
    simp [get_transcript, hcap, hnone]

/-- Witness for `fallback_policy`: a config with an empty caption list and
one complete "mainAudio" stream reaches the recognizer, and a config with
neither captions nor streams errors without invoking it. -/
theorem fallback_policy_witness :
    (get_transcript cfgNoCaption
        (fun _ => Except.error ("nope"))
        (fun _ => Except.ok (str ("hallo")))).2 = true
    ∧ (get_transcript cfgEmpty
        (fun _ => Except.error ("nope"))
        (fun _ => Except.ok (str ("hallo")))).2 = false :=
  ⟨((fallback_policy cfgNoCaption _ _ (by decide)).1 ("low.mp4") (by decide)).1,
   ((fallback_policy cfgEmpty _ _ (by decide)).2 (by decide)).2⟩

theorem minByArea_go (l : List (String × Nat)) :
    ∀ a : String × Nat,
      ∃ p, List.foldl
          (fun acc x =>
            match acc with
            | none => some x
            | some b => if x.2 < b.2 then some x else some b)
          (some a) l = some p
        ∧ (p = a ∨ p ∈ l) ∧ p.2 ≤ a.2 ∧ ∀ q ∈ l, p.2 ≤ q.2 := by
  induction l with
  | nil => intro a; exact ⟨a, rfl, Or.inl rfl, Nat.le_refl _, by simp⟩
  | cons x rest ih =>
    intro a
    by_cases hx : x.2 < a.2
    · obtain ⟨p, hfold, hmem, hle, hall⟩ := ih x
      refine ⟨p, ?_, ?_, ?_, ?_⟩
      · simpa [hx] using hfold
      · rcases hmem with h | h
        · refine Or.inr ?_; rw [h]; exact List.mem_cons_self x rest
        · exact Or.inr (List.mem_cons_of_mem x h)
      · exact Nat.le_trans hle (Nat.le_of_lt hx)
      · intro q hq
        rcases List.mem_cons.mp hq with h | h
        · rw [h]; exact hle
        · exact hall q h
    · obtain ⟨p, hfold, hmem, hle, hall⟩ := ih a
      refine ⟨p, ?_, ?_, hle, ?_⟩
      · simpa [hx] using hfold
      · rcases hmem with h | h
        · exact Or.inl h
        · exact Or.inr (List.mem_cons_of_mem x h)
      · intro q hq
        rcases List.mem_cons.mp hq with h | h
        · rw [h]; exact Nat.le_trans hle (Nat.le_of_not_lt hx)
        · exact hall q h

theorem minByArea_spec (l : List (String × Nat)) :
    (minByArea l = none ↔ l = [])
    ∧ (∀ p, minByArea l = some p → p ∈ l ∧ ∀ q ∈ l, p.2 ≤ q.2) := by
  cases l with
  | nil => exact ⟨by simp [minByArea], fun p hp => by simp [minByArea] at hp⟩
  | cons x rest =>
    obtain ⟨p, hfold, hmem, hle, hall⟩ := minByArea_go rest x
    have hmin : minByArea (x :: rest) = some p := by
      simpa [minByArea] using hfold
    constructor
    · rw [hmin]; simp
    · intro q hq
      rw [hmin] at hq
      cases hq
      constructor
      · rcases hmem with h | h
        · rw [h]; exact List.mem_cons_self x rest
        · exact List.mem_cons_of_mem x h
      · intro q hq
        rcases List.mem_cons.mp hq with h | h
        · rw [h]; exact hle
        · exact hall q h

theorem get_video_url_eq_minBy (cfg : JVal) :
    get_video_url cfg = (minByArea (candidateVariants cfg)).map (fun p => p.1) := by
  unfold get_video_url candidateVariants
  cases mainAudioStream cfg with
  | none => rfl
  | some stream =>
    dsimp only [Option.bind]
    cases (stream.idx ("sources")).idx ("mp4") <;> rfl

/-- C7 as stated is false: the area `w * h` is computed in `usize`
arithmetic, which wraps modulo 2^64 in a release build.  On a stream
offering a 2^32 × 2^32 variant (true pixel area 2^64, wrapped key 0) next
to a 1 × 2 variant (area 2), the program selects the huge variant even
though the other one's true pixel area is smaller. -/
theorem video_url_overflow_cex :
    get_video_url cfgOverflow = some ("big.mp4")
    ∧ ¬get_video_url cfgOverflow = some ("small.mp4")
    ∧ (("big.mp4" : String), 0) ∈ candidateVariants cfgOverflow
    ∧ (("small.mp4" : String), 2) ∈ candidateVariants cfgOverflow
    ∧ (1 * 2 : Nat) < 4294967296 * 4294967296 :=
  ⟨by decide, by decide, by decide, by decide, by decide⟩

/-- C7 (amended): `get_video_url` keeps only the first stream of role
"mainAudio" and, among its mp4 variants that carry a source URL, a width
and a height, returns the source of a variant whose `usize` pixel area —
width × height wrapped modulo 2^64, as a release build computes it — is
minimal; this is the variant of smallest true pixel area whenever no
product overflows.  It returns `none` exactly when the candidate list is
empty — no such stream, no mp4 variant array, or no variant with all
three fields. -/
theorem video_url_selection (cfg : JVal) :
    (get_video_url cfg = none ↔ candidateVariants cfg = [])
    ∧ (∀ u, get_video_url cfg = some u →
        ∃ a, (u, a) ∈ candidateVariants cfg
          ∧ ∀ q ∈ candidateVariants cfg, a ≤ q.2) := by
  have he := get_video_url_eq_minBy cfg
  constructor
  · rw [he, Option.map_eq_none']
    exact (minByArea_spec (candidateVariants cfg)).1
  · intro u hu
    rw [he, Option.map_eq_some'] at hu
    obtain ⟨p, hp, hpu⟩ := hu
    obtain ⟨hmem, hmin⟩ := (minByArea_spec (candidateVariants cfg)).2 p hp
    refine ⟨p.2, ?_, hmin⟩
    rw [← hpu]
    exact hmem

/-- Witness for `video_url_selection`: on a config whose "mainAudio"
stream offers a 16×9 variant before a 4×3 one, the selected URL is the
smaller variant's source and its area is minimal. -/
theorem video_url_selection_witness :
    ∃ a, (("low.mp4" : String), a) ∈ candidateVariants cfgTwoVariants
      ∧ ∀ q ∈ candidateVariants cfgTwoVariants, a ≤ q.2 :=
  (video_url_selection cfgTwoVariants).2 ("low.mp4") (by decide)

/-- C8: the credential POST of `Session::login` goes to the form response
URL with the query stripped and carries the claimed `Referer` and
`Sec-Fetch-*` headers, but the `Origin` header is assembled as
`format!("{}://{}", host, scheme)` — host and scheme swapped — so on the
identity provider's form URL the request carries
"idp.zid.tuwien.ac.at://https" instead of the origin
"https://idp.zid.tuwien.ac.at" the claim (and any browser) would send. -/
theorem login_origin_bug :
    (loginPost samlUrl).url = stripQuery samlUrl
    ∧ (loginPost samlUrl).referer = urlToString samlUrl
    ∧ (loginPost samlUrl).secFetchDest = "document"
    ∧ (loginPost samlUrl).secFetchMode = "navigate"
    ∧ (loginPost samlUrl).secFetchSite = "same-origin"
    ∧ (loginPost samlUrl).secFetchUser = "?1"
    ∧ (loginPost samlUrl).origin = "idp.zid.tuwien.ac.at://https"
    ∧ specOrigin samlUrl = "https://idp.zid.tuwien.ac.at"
    ∧ (loginPost samlUrl).origin ≠ specOrigin samlUrl := by
  refine ⟨rfl, rfl, rfl, rfl, rfl, rfl, by decide, by decide, by decide⟩

/-- C9: `Session::restore` calls `.unwrap()` on the result of
`CookieStore::load_json`, so malformed serialized cookie bytes make the
build attempt panic — crash the process — instead of returning the
terminal `AuthError` the claim requires; the later steps (liveness check,
login, token refresh) are never consulted. -/
theorem restore_malformed_panic :
    ∀ (e : String) (check : Except String Bool)
      (login loadKey : Except String (Option String)),
      session_restore (Except.error e) check login loadKey = RunResult.panic := by
  intro e check login loadKey
  rfl

theorem load_key_cases (env : LoadKeyEnv) (key : Option String) :
    (∃ e, load_key env key = (Except.error e, key))
    ∨ (∃ sk, load_key env key = (Except.ok (), some sk)) := by
  unfold load_key
  rcases env with ⟨resp, scr, parse⟩
  dsimp only
  cases resp with
  | error e => exact Or.inl ⟨e, rfl⟩
  | ok u =>
    dsimp only
    cases scr with
    | none => exact Or.inl ⟨_, rfl⟩
    | some text =>
      dsimp only
      cases (rustLines text).find? (fun l => l.startsWith mcfgAssign) with
      | none => exact Or.inl ⟨_, rfl⟩
      | some line =>
        dsimp only
        cases beforeSemi (line.drop mcfgAssign.length) with
        | none => exact Or.inl ⟨_, rfl⟩
        | some cfgStr =>
          dsimp only
          cases parse cfgStr with
          | none => exact Or.inl ⟨_, rfl⟩
          | some cfg =>
            dsimp only
            cases (cfg.idx ("sesskey")).asStr with
            | none => exact Or.inl ⟨_, rfl⟩
            | some sk => exact Or.inr ⟨sk, rfl⟩

/-- C10: `load_key` is atomic with respect to the stored security token:
whenever any step fails (request error, missing third head script, no
line starting with the `M.cfg = ` prefix, no terminating semicolon, JSON
parse failure, or missing `sesskey` field) the call returns the error with
the token exactly as it was, and the token is reassigned only on the
all-steps-succeeded path. -/
theorem load_key_atomic (env : LoadKeyEnv) (key : Option String) :
    (∀ e, (load_key env key).1 = Except.error e → (load_key env key).2 = key)
    ∧ (∀ u, (load_key env key).1 = Except.ok u →
        ∃ sk, (load_key env key).2 = some sk) := by
  rcases load_key_cases env key with ⟨e, he⟩ | ⟨sk, hsk⟩
  · constructor
    · intro e2 h2
      rw [he]
    · intro u hu
      rw [he] at hu
      cases hu
  · constructor
    · intro e2 h2
      rw [hsk] at h2
      cases h2
    · intro u hu
      exact ⟨sk, by rw [hsk]⟩

/-- Witness for `load_key_atomic`: a landing page without the config
script leaves a previously stored token untouched. -/
theorem load_key_atomic_witness :
    (load_key envNoScript (some ("oldkey"))).2 = some ("oldkey") :=
  (load_key_atomic envNoScript (some ("oldkey"))).1
    ("Failed to find moodle config script") rfl

theorem trimRight_cons (c : Nat) (rest : List Nat) :
    trimRight (c :: rest)
      = if (trimRight rest).isEmpty = true
        then (if isWs c = true then [] else [c])
        else c :: trimRight rest := rfl

theorem specDedup_cons2 (x y : List Nat) (rest : List (List Nat)) :
    specDedup (x :: y :: rest)
      = if x = y then specDedup (y :: rest) else x :: specDedup (y :: rest) := rfl

theorem dedupLoop_cons (t b : List Nat) (rs : List (List Nat)) :
    dedupLoop t (b :: rs)
      = if trimCue b = t then dedupLoop t rs
        else trimCue b :: dedupLoop (trimCue b) rs := rfl

theorem dropWhile_head_false {p : Nat → Bool} :
    ∀ {l c : _} {t : List Nat}, List.dropWhile p l = c :: t → p c = false := by
  intro l
  induction l with
  | nil => intro c t h; cases h
  | cons x rest ih =>
    intro c t h
    by_cases hx : p x = true
    · rw [List.dropWhile_cons_of_pos hx] at h
      exact ih h
    · rw [List.dropWhile_cons_of_neg hx] at h
      cases h
      exact Bool.eq_false_iff.mpr hx

theorem trimRight_shape (c : Nat) (rest : List Nat) :
    trimRight (c :: rest) = [] ∨ ∃ t, trimRight (c :: rest) = c :: t := by
  rw [trimRight_cons]
  by_cases hr : (trimRight rest).isEmpty = true
  · rw [if_pos hr]
    by_cases hc : isWs c = true
    · rw [if_pos hc]; left; rfl
    · rw [if_neg hc]; right; exact ⟨[], rfl⟩
  · rw [if_neg hr]; right; exact ⟨trimRight rest, rfl⟩

theorem trimRight_idem : ∀ l, trimRight (trimRight l) = trimRight l := by
  intro l
  induction l with
  | nil => rfl
  | cons c rest ih =>
    rw [trimRight_cons]
    by_cases hr : (trimRight rest).isEmpty = true
    · rw [if_pos hr]
      by_cases hc : isWs c = true
      · rw [if_pos hc]; rfl
      · rw [if_neg hc, trimRight_cons]
        simp [trimRight, hc]
    · rw [if_neg hr, trimRight_cons, ih, if_neg hr]

theorem trimCue_idem (l : List Nat) : trimCue (trimCue l) = trimCue l := by
  unfold trimCue
  cases hd : l.dropWhile isWs with
  | nil => rfl
  | cons c t =>
    have hc : isWs c = false := dropWhile_head_false hd
    rcases trimRight_shape c t with h | ⟨t2, h⟩
    · rw [h]; rfl
    · rw [h, List.dropWhile_cons_of_neg (by simp [hc]), ← h, trimRight_idem]

theorem dedupLoop_eq_specDedup :
    ∀ (rs : List (List Nat)) (t : List Nat),
      t :: dedupLoop t rs = specDedup (t :: rs.map trimCue) := by
  intro rs
  induction rs with
  | nil => intro t; rfl
  | cons b rs ih =>
    intro t
    rw [List.map_cons, specDedup_cons2, dedupLoop_cons]
    by_cases hb : trimCue b = t
    · rw [if_pos hb, if_pos hb.symm, ← hb]
      exact ih (trimCue b)
    · rw [if_neg hb, if_neg (fun h => hb h.symm), ih (trimCue b)]

theorem specDedup_cons_head :
    ∀ (rest : List (List Nat)) (y : List Nat),
      ∃ t, specDedup (y :: rest) = y :: t := by
  intro rest
  induction rest with
  | nil => intro y; exact ⟨[], rfl⟩
  | cons r rs ih =>
    intro y
    by_cases h : y = r
    · obtain ⟨t, ht⟩ := ih r
      refine ⟨t, ?_⟩
      rw [specDedup_cons2, if_pos h, ht, h]
    · exact ⟨specDedup (r :: rs), by rw [specDedup_cons2, if_neg h]⟩

theorem specDedup_chain :
    ∀ l : List (List Nat), List.Chain' (fun a b => a ≠ b) (specDedup l) := by
  intro l
  induction l with
  | nil => simp [specDedup]
  | cons x tail ih =>
    cases tail with
    | nil => simp [specDedup]
    | cons y rest =>
      by_cases h : x = y
      · rw [specDedup_cons2, if_pos h]
        exact ih
      · obtain ⟨t, ht⟩ := specDedup_cons_head rest y
        rw [specDedup_cons2, if_neg h, ht]
        rw [ht] at ih
        exact List.chain'_cons.mpr ⟨h, ih⟩

theorem specDedup_of_chain :
    ∀ l : List (List Nat), List.Chain' (fun a b => a ≠ b) l → specDedup l = l := by
  intro l
  induction l with
  | nil => intro _; rfl
  | cons x tail ih =>
    cases tail with
    | nil => intro _; rfl
    | cons y rest =>
      intro hc
      obtain ⟨hxy, hc2⟩ := List.chain'_cons.mp hc
      rw [specDedup_cons2, if_neg hxy, ih hc2]

theorem specDedup_mem :
    ∀ (l : List (List Nat)) (x : List Nat), x ∈ specDedup l → x ∈ l := by
  intro l
  induction l with
  | nil => intro x hx; cases hx
  | cons a tail ih =>
    cases tail with
    | nil => intro x hx; exact hx
    | cons y rest =>
      intro x hx
      by_cases h : a = y
      · rw [specDedup_cons2, if_pos h] at hx
        exact List.mem_cons_of_mem a (ih x hx)
      · rw [specDedup_cons2, if_neg h] at hx
        rcases List.mem_cons.mp hx with h2 | h2
        · rw [h2]; exact List.mem_cons_self a (y :: rest)
        · exact List.mem_cons_of_mem a (ih x h2)

theorem map_trimCue_id :
    ∀ n : List (List Nat), (∀ x ∈ n, trimCue x = x) → n.map trimCue = n := by
  intro n
  induction n with
  | nil => intro _; rfl
  | cons x rest ih =>
    intro h
    rw [List.map_cons, h x (List.mem_cons_self x rest),
      ih (fun y hy => h y (List.mem_cons_of_mem x hy))]

theorem reduceSpec_idem (l : List (List Nat)) :
    reduceSpec (reduceSpec l) = reduceSpec l := by
  unfold reduceSpec
  rw [map_trimCue_id (specDedup (l.map trimCue)) ?_]
  · exact specDedup_of_chain _ (specDedup_chain (l.map trimCue))
  · intro x hx
    obtain ⟨y, _, hy⟩ := List.mem_map.mp (specDedup_mem _ x hx)
    rw [← hy, trimCue_idem]

theorem get_opencast_ok (blocks : List VttBlock) (first : List Nat)
    (rest : List (List Nat)) (h : cuesOf blocks = first :: rest) :
    get_opencast_transcript blocks
      = RunResult.ok (List.intercalate spaceCp (reduceSpec (cuesOf blocks))) := by
  have hne : ¬blocks.length = 0 := by
    intro hb
    rw [List.length_eq_zero] at hb
    rw [hb] at h
    simp [cuesOf] at h
  unfold get_opencast_transcript
  rw [if_neg hne, h]
  dsimp only
  rw [dedupLoop_cons, if_pos rfl, dedupLoop_eq_specDedup rest (trimCue first)]
  unfold reduceSpec
  rw [List.map_cons]

/-- C4 claim as stated is false: the reduction does not handle every cue
sequence — on a caption file whose blocks contain no cue at all (here two
style/region directives) the code panics at `raw_transcript.first()
.unwrap()` instead of producing the joined reduction of the (empty) cue
sequence. -/
theorem cue_reduction_cex :
    get_opencast_transcript [VttBlock.other, VttBlock.other] = RunResult.panic
    ∧ get_opencast_transcript [VttBlock.other, VttBlock.other]
        ≠ RunResult.ok (List.intercalate spaceCp
            (reduceSpec (cuesOf [VttBlock.other, VttBlock.other]))) :=
  ⟨rfl, by decide⟩

/-- C4 (amended to cue sequences with at least one cue): the reduction
takes the payload text of cue blocks only, trims each cue, keeps one copy
per maximal run of consecutive identical post-trim cues in first-occurrence
order, and joins the survivors with single spaces; the trim-and-collapse
reduction is idempotent, and non-consecutive repeats are all kept. -/
theorem cue_reduction_amended (blocks : List VttBlock)
    (h : cuesOf blocks ≠ []) :
    get_opencast_transcript blocks
      = RunResult.ok (List.intercalate spaceCp (reduceSpec (cuesOf blocks)))
    ∧ (∀ l, reduceSpec (reduceSpec l) = reduceSpec l)
    ∧ (∀ x y : List Nat, x ≠ y → specDedup [x, y, x] = [x, y, x]) := by
  refine ⟨?_, reduceSpec_idem, ?_⟩
  · cases hc : cuesOf blocks with
    | nil => exact absurd hc h
    | cons first rest => rw [← hc]; exact get_opencast_ok blocks first rest hc
  · intro x y hxy
    rw [specDedup_cons2, if_neg hxy, specDedup_cons2,
      if_neg (fun h2 => hxy h2.symm)]
    rfl

/-- Witness for `cue_reduction_amended`: a block list with a non-cue
block, a cue trimming into a duplicate, and a non-consecutive repeat. -/
theorem cue_reduction_amended_witness :
    get_opencast_transcript blocksC4
      = RunResult.ok (List.intercalate spaceCp (reduceSpec (cuesOf blocksC4))) :=
  (cue_reduction_amended blocksC4 (by decide)).1

/-- C6: the claim requires a parsed caption file with zero cues to be
rejected as an error; the code only rejects files with zero blocks
("Captions are empty") and panics on a file whose blocks are all non-cue
directives (e.g. a single STYLE block), crashing instead of returning the
error that would trigger the fallback. -/
theorem zero_cue_divergence :
    get_opencast_transcript [VttBlock.other] = RunResult.panic
    ∧ get_opencast_transcript ([] : List VttBlock)
        = RunResult.err ("Captions are empty") :=
  ⟨rfl, rfl⟩

/-- C5: on the cue sequence ["Das ist trivial.", "Das ist trivial.",
"Ergibt das Sinn?"] the resolved transcript is "Das ist trivial. Ergibt
das Sinn?" and the pattern counts are defacto 0, trivial 1, sinn 1. -/
theorem end_to_end_counts :
    get_opencast_transcript blocksC5
      = RunResult.ok (str ("Das ist trivial. Ergibt das Sinn?"))
    ∧ countPat defactoWords (str ("Das ist trivial. Ergibt das Sinn?")) = 0
    ∧ countPat trivialWords (str ("Das ist trivial. Ergibt das Sinn?")) = 1
    ∧ countPat sinnWords (str ("Das ist trivial. Ergibt das Sinn?")) = 1 :=
  ⟨by decide, by decide, by decide, by decide⟩

theorem matchWords_nil (s : List Nat) : matchWords [] s = some s := rfl

theorem matchWords_single (w : List Nat) (s : List Nat) :
    matchWords [w] s = matchWord w s := rfl

theorem matchWords_cons2 (w w2 : List Nat) (ws : List (List Nat)) (s : List Nat) :
    matchWords (w :: w2 :: ws) s
      = (matchWord w s).bind (fun s2 => (skipGap s2).bind (matchWords (w2 :: ws))) := rfl

theorem matchWord_cons (c d : Nat) (w s : List Nat) :
    matchWord (c :: w) (d :: s)
      = if foldc d = foldc c then matchWord w s else none := rfl

theorem matchWord_cons_nil (c : Nat) (w : List Nat) :
    matchWord (c :: w) [] = none := rfl

theorem skipGap_cons (c : Nat) (s : List Nat) :
    skipGap (c :: s)
      = if isWs c = true then some (s.dropWhile isWs) else none := rfl

theorem matchPatAt_cons (ws : List (List Nat)) (c : Nat) (s2 : List Nat) :
    matchPatAt ws (c :: s2)
      = if isWordLetter c = true then none
        else
          match matchWords ws s2 with
          | none => none
          | some s3 =>
            match s3 with
            | [] => none
            | d :: s4 => if isWordLetter d = true then none else some s4 := rfl

theorem countPatFuel_succ_cons (ws : List (List Nat)) (f c : Nat) (s : List Nat) :
    countPatFuel ws (f + 1) (c :: s)
      = match matchPatAt ws (c :: s) with
        | some rem => countPatFuel ws f rem + 1
        | none => countPatFuel ws f s := rfl

theorem isWordLetter_foldc (c : Nat) : isWordLetter c = isAsciiLetter (foldc c) := by
  rw [Bool.eq_iff_iff]
  simp only [isWordLetter, isAsciiLetter, foldc, Bool.or_eq_true, decide_eq_true_eq]
  split_ifs with h1 h2 h3 <;> omega

theorem isWs_foldc (c : Nat) : isWs (foldc c) = isWs c := by
  rw [Bool.eq_iff_iff]
  simp only [isWs, foldc, decide_eq_true_eq]
  split_ifs with h1 h2 h3 <;> omega

theorem ce_cons {a b : Nat} {s t : List Nat} :
    CaseEquiv (a :: s) (b :: t) ↔ foldc a = foldc b ∧ CaseEquiv s t := by
  simp [CaseEquiv]

theorem ce_nil_left {t : List Nat} : CaseEquiv [] t ↔ t = [] := by
  cases t <;> simp [CaseEquiv]

theorem ce_nil_right {s : List Nat} : CaseEquiv s [] ↔ s = [] := by
  cases s <;> simp [CaseEquiv]

theorem isWs_congr {d e : Nat} (h : foldc d = foldc e) : isWs d = isWs e := by
  rw [← isWs_foldc d, h, isWs_foldc]

theorem isWordLetter_congr {d e : Nat} (h : foldc d = foldc e) :
    isWordLetter d = isWordLetter e := by
  rw [isWordLetter_foldc, h, ← isWordLetter_foldc]

theorem matchWord_rel (w : List Nat) :
    ∀ s t, CaseEquiv s t →
      (matchWord w s = none ∧ matchWord w t = none)
      ∨ ∃ r1 r2, matchWord w s = some r1 ∧ matchWord w t = some r2
          ∧ CaseEquiv r1 r2 := by
  induction w with
  | nil => intro s t h; exact Or.inr ⟨s, t, rfl, rfl, h⟩
  | cons c w ih =>
    intro s t h
    cases s with
    | nil =>
      rw [ce_nil_left] at h
      rw [h]
      exact Or.inl ⟨rfl, rfl⟩
    | cons d s2 =>
      cases t with
      | nil => rw [ce_nil_right] at h; cases h
      | cons e t2 =>
        obtain ⟨hde, h2⟩ := ce_cons.mp h
        rw [matchWord_cons, matchWord_cons, hde]
        by_cases hc : foldc e = foldc c
        · simp only [if_pos hc]
          exact ih s2 t2 h2
        · simp only [if_neg hc]
          exact Or.inl ⟨trivial, trivial⟩

theorem dropWhile_ws_rel :
    ∀ s t, CaseEquiv s t →
      CaseEquiv (s.dropWhile isWs) (t.dropWhile isWs) := by
  intro s
  induction s with
  | nil =>
    intro t h
    rw [ce_nil_left] at h
    rw [h]
    exact ce_nil_left.mpr rfl
  | cons d s2 ih =>
    intro t h
    cases t with
    | nil => rw [ce_nil_right] at h; cases h
    | cons e t2 =>
      obtain ⟨hde, h2⟩ := ce_cons.mp h
      by_cases hw : isWs d = true
      · have hw2 : isWs e = true := by rw [← isWs_congr hde]; exact hw
        rw [List.dropWhile_cons_of_pos hw, List.dropWhile_cons_of_pos hw2]
        exact ih t2 h2
      · have hw2 : ¬isWs e = true := by rw [← isWs_congr hde]; exact hw
        rw [List.dropWhile_cons_of_neg hw, List.dropWhile_cons_of_neg hw2]
        exact ce_cons.mpr ⟨hde, h2⟩

theorem skipGap_rel :
    ∀ s t, CaseEquiv s t →
      (skipGap s = none ∧ skipGap t = none)
      ∨ ∃ r1 r2, skipGap s = some r1 ∧ skipGap t = some r2 ∧ CaseEquiv r1 r2 := by
  intro s t h
  cases s with
  | nil =>
    rw [ce_nil_left] at h
    rw [h]
    exact Or.inl ⟨rfl, rfl⟩
  | cons d s2 =>
    cases t with
    | nil => rw [ce_nil_right] at h; cases h
    | cons e t2 =>
      obtain ⟨hde, h2⟩ := ce_cons.mp h
      rw [skipGap_cons, skipGap_cons, isWs_congr hde]
      by_cases hw : isWs e = true
      · simp only [if_pos hw]
        exact Or.inr ⟨_, _, rfl, rfl, dropWhile_ws_rel s2 t2 h2⟩
      · simp only [if_neg hw]
        exact Or.inl ⟨trivial, trivial⟩

theorem matchWords_rel (ws : List (List Nat)) :
    ∀ s t, CaseEquiv s t →
      (matchWords ws s = none ∧ matchWords ws t = none)
      ∨ ∃ r1 r2, matchWords ws s = some r1 ∧ matchWords ws t = some r2
          ∧ CaseEquiv r1 r2 := by
  induction ws with
  | nil => intro s t h; exact Or.inr ⟨s, t, rfl, rfl, h⟩
  | cons w tail ih =>
    cases tail with
    | nil =>
      intro s t h
      rw [matchWords_single, matchWords_single]
      exact matchWord_rel w s t h
    | cons w2 ws2 =>
      intro s t h
      rw [matchWords_cons2, matchWords_cons2]
      rcases matchWord_rel w s t h with ⟨hs, ht⟩ | ⟨r1, r2, hs, ht, hr⟩
      · rw [hs, ht]
        exact Or.inl ⟨rfl, rfl⟩
      · rw [hs, ht]
        dsimp only [Option.bind]
        rcases skipGap_rel r1 r2 hr with ⟨gs, gt⟩ | ⟨q1, q2, gs, gt, hq⟩
        · rw [gs, gt]
          exact Or.inl ⟨rfl, rfl⟩
        · rw [gs, gt]
          dsimp only [Option.bind]
          exact ih q1 q2 hq

theorem matchPatAt_rel (ws : List (List Nat)) :
    ∀ s t, CaseEquiv s t →
      (matchPatAt ws s = none ∧ matchPatAt ws t = none)
      ∨ ∃ r1 r2, matchPatAt ws s = some r1 ∧ matchPatAt ws t = some r2
          ∧ CaseEquiv r1 r2 := by
  intro s t h
  cases s with
  | nil =>
    rw [ce_nil_left] at h
    rw [h]
    exact Or.inl ⟨rfl, rfl⟩
  | cons c s2 =>
    cases t with
    | nil => rw [ce_nil_right] at h; cases h
    | cons e t2 =>
      obtain ⟨hce, h2⟩ := ce_cons.mp h
      rw [matchPatAt_cons, matchPatAt_cons, isWordLetter_congr hce]
      by_cases hl : isWordLetter e = true
      · simp only [if_pos hl]
        exact Or.inl ⟨trivial, trivial⟩
      · simp only [if_neg hl]
        rcases matchWords_rel ws s2 t2 h2 with ⟨hs, ht⟩ | ⟨r1, r2, hs, ht, hr⟩
        · rw [hs, ht]
          exact Or.inl ⟨rfl, rfl⟩
        · rw [hs, ht]
          dsimp only
          cases r1 with
          | nil =>
            rw [ce_nil_left] at hr
            rw [hr]
            exact Or.inl ⟨rfl, rfl⟩
          | cons d2 s4 =>
            cases r2 with
            | nil => rw [ce_nil_right] at hr; cases hr
            | cons e2 t4 =>
              obtain ⟨hde2, h4⟩ := ce_cons.mp hr
              dsimp only
              rw [isWordLetter_congr hde2]
              by_cases hb : isWordLetter e2 = true
              · simp only [if_pos hb]
                exact Or.inl ⟨trivial, trivial⟩
              · simp only [if_neg hb]
                exact Or.inr ⟨s4, t4, rfl, rfl, h4⟩

theorem countPatFuel_rel (ws : List (List Nat)) :
    ∀ fuel s t, CaseEquiv s t →
      countPatFuel ws fuel s = countPatFuel ws fuel t := by
  intro fuel
  induction fuel with
  | zero => intro s t h; rfl
  | succ f ih =>
    intro s t h
    cases s with
    | nil =>
      rw [ce_nil_left] at h
      rw [h]
    | cons c s2 =>
      cases t with
      | nil => rw [ce_nil_right] at h; cases h
      | cons e t2 =>
        rw [countPatFuel_succ_cons, countPatFuel_succ_cons]
        rcases matchPatAt_rel ws (c :: s2) (e :: t2) h with
          ⟨hs, ht⟩ | ⟨r1, r2, hs, ht, hr⟩
        · rw [hs, ht]
          dsimp only
          exact ih s2 t2 (ce_cons.mp h).2
        · rw [hs, ht]
          dsimp only
          rw [ih r1 r2 hr]

theorem ce_length {s t : List Nat} (h : CaseEquiv s t) : s.length = t.length := by
  have h2 := congrArg List.length h
  simpa using h2

theorem countPat_rel (ws : List (List Nat)) (s t : List Nat)
    (h : CaseEquiv s t) : countPat ws s = countPat ws t := by
  unfold countPat
  rw [countPatFuel_rel ws s.length s t h, ce_length h]

theorem matchWord_len (w : List Nat) :
    ∀ s r, matchWord w s = some r → r.length ≤ s.length := by
  induction w with
  | nil =>
    intro s r h
    cases h
    exact Nat.le_refl _
  | cons c w ih =>
    intro s r h
    cases s with
    | nil => exact Option.noConfusion h
    | cons d s2 =>
      rw [matchWord_cons] at h
      by_cases hc : foldc d = foldc c
      · rw [if_pos hc] at h
        exact Nat.le_trans (ih s2 r h) (Nat.le_succ _)
      · rw [if_neg hc] at h
        exact Option.noConfusion h

theorem length_dropWhile_ws :
    ∀ l : List Nat, (l.dropWhile isWs).length ≤ l.length := by
  intro l
  induction l with
  | nil => exact Nat.le_refl _
  | cons c t ih =>
    by_cases hc : isWs c = true
    · rw [List.dropWhile_cons_of_pos hc]
      exact Nat.le_trans ih (Nat.le_succ _)
    · rw [List.dropWhile_cons_of_neg hc]

theorem skipGap_len :
    ∀ s r, skipGap s = some r → r.length < s.length := by
  intro s r h
  cases s with
  | nil => exact Option.noConfusion h
  | cons c s2 =>
    rw [skipGap_cons] at h
    by_cases hw : isWs c = true
    · rw [if_pos hw] at h
      cases h
      exact Nat.lt_succ_of_le (length_dropWhile_ws s2)
    · rw [if_neg hw] at h
      exact Option.noConfusion h

theorem matchWords_len (ws : List (List Nat)) :
    ∀ s r, matchWords ws s = some r → r.length ≤ s.length := by
  induction ws with
  | nil =>
    intro s r h
    cases h
    exact Nat.le_refl _
  | cons w tail ih =>
    cases tail with
    | nil =>
      intro s r h
      rw [matchWords_single] at h
      exact matchWord_len w s r h
    | cons w2 ws2 =>
      intro s r h
      rw [matchWords_cons2] at h
      cases hm : matchWord w s with
      | none => rw [hm] at h; exact Option.noConfusion h
      | some m =>
        rw [hm] at h
        dsimp only [Option.bind] at h
        cases hg : skipGap m with
        | none => rw [hg] at h; exact Option.noConfusion h
        | some g =>
          rw [hg] at h
          dsimp only [Option.bind] at h
          exact Nat.le_trans (ih g r h)
            (Nat.le_trans (Nat.le_of_lt (skipGap_len m g hg))
              (matchWord_len w s m hm))

theorem matchPatAt_len (ws : List (List Nat)) :
    ∀ s r, matchPatAt ws s = some r → r.length < s.length := by
  intro s r h
  cases s with
  | nil => exact Option.noConfusion h
  | cons c s2 =>
    rw [matchPatAt_cons] at h
    by_cases hl : isWordLetter c = true
    · rw [if_pos hl] at h
      exact Option.noConfusion h
    · rw [if_neg hl] at h
      cases hm : matchWords ws s2 with
      | none => rw [hm] at h; exact Option.noConfusion h
      | some s3 =>
        rw [hm] at h
        dsimp only at h
        cases s3 with
        | nil => exact Option.noConfusion h
        | cons d s4 =>
          dsimp only at h
          by_cases hb : isWordLetter d = true
          · rw [if_pos hb] at h
            exact Option.noConfusion h
          · rw [if_neg hb] at h
            cases h
            have h1 := matchWords_len ws s2 _ hm
            simp only [List.length_cons] at h1 ⊢
            omega

theorem countPatFuel_nil (ws : List (List Nat)) :
    ∀ f, countPatFuel ws f [] = 0 := by
  intro f
  cases f <;> rfl

/-- Fuel above the input length is irrelevant: the scan consumes at least
one code point per step, so `countPat` (fuel = length) computes the same
count as any larger fuel — the fuelled model loses nothing. -/
theorem countPatFuel_fuel (ws : List (List Nat)) :
    ∀ (n : Nat) (s : List Nat) (f g : Nat), s.length ≤ n → n ≤ f → n ≤ g →
      countPatFuel ws f s = countPatFuel ws g s := by
  intro n
  induction n with
  | zero =>
    intro s f g hs _ _
    have : s = [] := List.length_eq_zero.mp (Nat.le_zero.mp hs)
    rw [this, countPatFuel_nil, countPatFuel_nil]
  | succ n ih =>
    intro s f g hs hf hg
    cases s with
    | nil => rw [countPatFuel_nil, countPatFuel_nil]
    | cons c s2 =>
      rw [List.length_cons] at hs
      cases f with
      | zero => omega
      | succ f2 =>
        cases g with
        | zero => omega
        | succ g2 =>
          rw [countPatFuel_succ_cons, countPatFuel_succ_cons]
          cases hm : matchPatAt ws (c :: s2) with
          | none =>
            dsimp only
            exact ih s2 f2 g2 (by omega) (by omega) (by omega)
          | some rem =>
            dsimp only
            have hlt : rem.length < (c :: s2).length := matchPatAt_len ws _ rem hm
            rw [List.length_cons] at hlt
            rw [ih rem f2 g2 (by omega) (by omega) (by omega)]

theorem countPatFuel_eq_countPat (ws : List (List Nat)) (f : Nat)
    (s : List Nat) (h : s.length ≤ f) :
    countPatFuel ws f s = countPat ws s :=
  countPatFuel_fuel ws s.length s f s.length (Nat.le_refl _) h (Nat.le_refl _)

/-- C1 as stated is false: the count is not invariant to the surrounding
whitespace/punctuation of an occurrence.  The regexes require a non-letter
character strictly before and strictly after the phrase, so "trivial" as
the whole transcript counts 0 while " trivial " counts 1; an occurrence at
the very end ("Das ist trivial") counts 0; and because the boundary
characters are consumed by non-overlapping matching, " trivial trivial "
counts 1, not 2. -/
theorem pattern_count_boundary_cex :
    countPat trivialWords (str ("trivial")) = 0
    ∧ countPat trivialWords (str (" trivial ")) = 1
    ∧ countPat trivialWords (str ("Das ist trivial")) = 0
    ∧ countPat trivialWords (str (" trivial trivial ")) = 1 :=
  ⟨by decide, by decide, by decide, by decide⟩

/-- C1 amended: for each of the three patterns the (non-negative, `Nat`)
count is invariant to letter case; an occurrence is counted only when a
non-letter character stands immediately before and after the phrase inside
the transcript (so occurrences touching the very start or end are missed,
and of two occurrences sharing one separator character only the first
counts, the boundaries being consumed by non-overlapping matching); a
phrase occurring only inside a longer word is never counted. -/
theorem pattern_count_amended :
    (∀ p ∈ PATTERNS, ∀ s t, CaseEquiv s t → countPat p s = countPat p t)
    ∧ countPat trivialWords (str (" trivially ")) = 0
    ∧ countPat defactoWords (str (" de factor ")) = 0
    ∧ countPat sinnWords (str (" Ergibt das Sinnbild ")) = 0 :=
  ⟨fun p _ s t h => countPat_rel p s t h, by decide, by decide, by decide⟩

/-- Witness for `pattern_count_amended`: the count of "trivial" does not
change when the occurrence is upper-cased. -/
theorem pattern_count_amended_witness :
    countPat trivialWords (str (" TRIVIAL! "))
      = countPat trivialWords (str (" trivial! ")) :=
  pattern_count_amended.1 trivialWords (by decide) (str (" TRIVIAL! "))
    (str (" trivial! ")) (by unfold CaseEquiv; decide)
